import Mathlib

/-!
Shallow embedding of `src/nireports/reportlets/modality/func.py` (class
`fMRIPlot`): the normalization of confound / physio / physio-confound /
spike inputs into per-signal records (`__init__`, lines 51-121) and the
row-layout, palette and render-orchestration logic (`plot`, lines 123-179).

External collaborators are modelled at their interface boundary:
`pd.read_csv` and `np.loadtxt` are function parameters of `FMRIPlot.init`,
the seaborn `color_palette` generator is a function parameter of
`FMRIPlot.plot`, and each invocation of the three renderers
(`spikesplot`, `confoundplot`, `plot_carpet`) is recorded as a
`RenderCall` value instead of drawing.  Python dicts are modelled as
insertion-ordered association lists (the iteration order of a Python dict
is insertion order); exceptions raised inside `plot` (a `KeyError` from
`kwargs.pop`, a `NameError` on an unassigned `palette`, an `IndexError`
on `palette[i]`) are modelled by `Option`, with `none` standing for any
raised exception.
-/

namespace NireportsFunc

/-- Numeric scalars carried by the records (table cells, TR, cutoffs).  The
code never computes with these values - they are read from tables and handed
to the renderers unchanged - so the embedding fixes an arbitrary decidable
scalar type. -/
abbrev Val := Int

/-- Colors produced by the palette generator, as abstract identifiers. -/
abbrev Color := Nat

/-- Segment labelling of the imaging matrix: consumed only by the carpet
renderer and carried through opaquely. -/
abbrev Segments := List (String × List Nat)

/-- Result of `.values.squeeze().tolist()` on an (n, 1) column slice:
numpy `squeeze` removes every axis of size 1, so a single-row column
collapses to a 0-d array whose `tolist()` is a bare scalar; every other
length gives the one-dimensional list. -/
inductive SqueezedValues where
  | scalar (x : Val)
  | seq (xs : List Val)
deriving DecidableEq

/-- Whether the squeezed value is a one-dimensional sequence (as opposed to
the bare scalar that a single-row column collapses to). -/
def SqueezedValues.isSeq : SqueezedValues → Bool
  | SqueezedValues.scalar _ => false
  | SqueezedValues.seq _ => true

/-- `df[[name]].values.squeeze().tolist()` for a column holding `col`
(func.py lines 88, 102, 114). -/
def squeeze_tolist (col : List Val) : SqueezedValues :=
  match col with
  | [x] => SqueezedValues.scalar x
  | xs => SqueezedValues.seq xs

/-- Python `m.get(k)`: the stored value, or `none` when the key is absent
(never an error).  `m` is a dict as an insertion-ordered association list
with unique keys; `find?` returns the first (hence only) match. -/
def dict_get {β : Type} (m : List (String × β)) (k : String) : Option β :=
  (m.find? (fun q => q.1 == k)).map (fun q => q.2)

/-- A pandas DataFrame at the granularity this code uses it: its
insertion-ordered (column name, column data) pairs. -/
structure DataFrame where
  columns : List (String × List Val)
deriving DecidableEq

/-- One entry of `self.confounds` (func.py lines 87-91): the dict
`{"values": ..., "units": ..., "cutoff": ...}`.  `values : Option _`
models the presence of the `"values"` key: `some` as constructed by
`__init__`, `none` after `kwargs.pop("values")` removed the key. -/
structure ConfoundRecord where
  values : Option SqueezedValues
  units : Option String
  cutoff : Option Val
deriving DecidableEq

/-- One entry of `self.physio` or `self.physio_confounds` (func.py lines
101-104 and 113-116): the dict `{"values": ..., "units": ...}` - note there
is no `"cutoff"` key for either category. -/
structure PhysioRecord where
  values : Option SqueezedValues
  units : Option String
deriving DecidableEq

/-- One entry of `self.spikes` (func.py line 121): the tuple
`(np.loadtxt(sp_file), None, False)`. -/
structure SpikeRecord where
  values : List (List Val)
  label : Option String
  zscored : Bool
deriving DecidableEq

/-- The state of an `fMRIPlot` object: its `__slots__` (func.py lines
38-49). -/
structure FMRIPlot where
  timeseries : List (List Val)
  segments : Segments
  tr : Option Val
  confounds : List (String × ConfoundRecord)
  physio : List (String × PhysioRecord)
  physio_confounds : List (String × PhysioRecord)
  spikes : List SpikeRecord
  nskip : Nat
  sort_carpet : Bool
  paired_carpet : Bool
deriving DecidableEq

/-- The record built for one confound column (func.py lines 87-91). -/
def mkConfoundRecord (units : List (String × String)) (vlines : List (String × Val))
    (name : String) (col : List Val) : ConfoundRecord :=
  { values := some (squeeze_tolist col)
    units := dict_get units name
    cutoff := dict_get vlines name }

/-- The record built for one physio or physio-confound column (func.py
lines 101-104, 113-116): units are looked up, the cutoff mapping is never
consulted. -/
def mkPhysioRecord (units : List (String × String)) (name : String) (col : List Val) :
    PhysioRecord :=
  { values := some (squeeze_tolist col), units := dict_get units name }

/-- `fMRIPlot.__init__` (func.py lines 51-121).  `read_csv` models
`pd.read_csv(conf_file, sep=..., usecols=usecols, index_col=False)` and
`loadtxt` models `np.loadtxt`; both are external I/O collaborators.
`physio_file` and `physio_conf_file` are accepted and ignored, as in the
source (the corresponding branches are `pass`).  A `none` mapping for
`units` / `vlines` defaults to the empty dict (lines 77-80); a `none` or
empty `spikes_files` is falsy and yields no spike records (line 119). -/
def FMRIPlot.init
    (read_csv : String → Option (List String) → DataFrame)
    (loadtxt : String → List (List Val))
    (timeseries : List (List Val)) (segments : Segments)
    (confounds : Option DataFrame) (conf_file : Option String)
    (physio : Option DataFrame) (physio_file : Option String)
    (physio_confounds : Option DataFrame) (physio_conf_file : Option String)
    (tr : Option Val) (usecols : Option (List String))
    (units : Option (List (String × String)))
    (vlines : Option (List (String × Val)))
    (spikes_files : Option (List String))
    (nskip : Nat) (sort_carpet : Bool) (paired_carpet : Bool) : FMRIPlot :=
  let units := units.getD []
  let vlines := vlines.getD []
  let confounds :=
    match confounds, conf_file with
    | none, some f => if f = "" then none else some (read_csv f usecols)
    | c, _ => c
  { timeseries := timeseries
    segments := segments
    tr := tr
    nskip := nskip
    sort_carpet := sort_carpet
    paired_carpet := paired_carpet
    confounds :=
      ((confounds.map DataFrame.columns).getD []).map
        (fun nc => (nc.1, mkConfoundRecord units vlines nc.1 nc.2))
    physio :=
      ((physio.map DataFrame.columns).getD []).map
        (fun nc => (nc.1, mkPhysioRecord units nc.1 nc.2))
    physio_confounds :=
      ((physio_confounds.map DataFrame.columns).getD []).map
        (fun nc => (nc.1, mkPhysioRecord units nc.1 nc.2))
    spikes :=
      (spikes_files.getD []).map
        (fun f => { values := loadtxt f, label := none, zscored := false }) }

/-- One recorded renderer invocation.  `spike` records a `spikesplot` call
(func.py line 144), `trace` a `confoundplot` call (lines 154, 161, 167:
positional series, grid row, `tr`, `color`, `name`, and the keyword
arguments `units` and `cutoff` - for physio and physio-confound rows no
`cutoff` keyword is passed and the renderer receives its default `none`),
and `carpet` a `plot_carpet` call (lines 170-178).  `row` is the index of
the grid region the call paints. -/
inductive RenderCall where
  | spike (row : Nat) (values : List (List Val)) (title : Option String)
      (tr : Option Val) (zscored : Bool)
  | trace (row : Nat) (tseries : SqueezedValues) (tr : Option Val) (color : Color)
      (name : String) (units : Option String) (cutoff : Option Val)
  | carpet (row : Nat) (timeseries : List (List Val)) (segments : Segments)
      (tr : Option Val) (sort_rows : Bool) (drop_trs : Nat) (cmap : Option String)
deriving DecidableEq

/-- The grid row a recorded call paints. -/
def RenderCall.row : RenderCall → Nat
  | RenderCall.spike r _ _ _ _ => r
  | RenderCall.trace r _ _ _ _ _ _ => r
  | RenderCall.carpet r _ _ _ _ _ _ => r

/-- Which renderer a recorded call invokes. -/
inductive CallKind where
  | spike
  | trace
  | carpet
deriving DecidableEq

/-- The kind of renderer a recorded call invokes. -/
def RenderCall.kind : RenderCall → CallKind
  | RenderCall.spike _ _ _ _ _ => CallKind.spike
  | RenderCall.trace _ _ _ _ _ _ _ => CallKind.trace
  | RenderCall.carpet _ _ _ _ _ _ _ => CallKind.carpet

/-- The `name` argument of a recorded `confoundplot` call (`none` for the
other two renderers, which take no signal name). -/
def RenderCall.signalName : RenderCall → Option String
  | RenderCall.trace _ _ _ _ n _ _ => some n
  | _ => none

/-- The repetition-time argument handed to the renderer. -/
def RenderCall.trArg : RenderCall → Option Val
  | RenderCall.spike _ _ _ t _ => t
  | RenderCall.trace _ _ t _ _ _ _ => t
  | RenderCall.carpet _ _ _ t _ _ _ => t

/-- The cutoff argument a recorded `confoundplot` call hands the renderer
(`none` for the other two renderers, which take no cutoff). -/
def RenderCall.cutoffArg : RenderCall → Option Val
  | RenderCall.trace _ _ _ _ _ _ c => c
  | _ => none

/-- `mapWithIndex f n [a, b, ...] = [f n a, f (n+1) b, ...]`: the
`enumerate` loops of `plot`. -/
def mapWithIndex {α β : Type} (f : Nat → α → β) : Nat → List α → List β
  | _, [] => []
  | n, a :: rest => f n a :: mapWithIndex f (n + 1) rest

/-- Sequence a list of fallible loop iterations: `some` of all results when
every iteration succeeds; the first `none` (a raised exception) aborts the
loop. -/
def seqOpt {α : Type} : List (Option α) → Option (List α)
  | [] => some []
  | none :: _ => none
  | some a :: rest => (seqOpt rest).map (fun l => a :: l)

/-- One iteration of a trace-rendering loop (func.py lines 152-168): pop
the `"values"` entry (`KeyError`, hence `none`, when the key is absent),
read `palette` (`NameError` when line 150 never assigned it) and index it
(`IndexError` when `idx` is out of range), then call `confoundplot`. -/
def traceCallOpt (tr_arg : Option Val) (palette : Option (List Color)) (row idx : Nat)
    (name : String) (values : Option SqueezedValues) (units : Option String)
    (cutoff : Option Val) : Option RenderCall :=
  match values, palette with
  | some v, some pl =>
    (pl[idx]?).map (fun c => RenderCall.trace row v tr_arg c name units cutoff)
  | _, _ => none

/-- A confound record after `kwargs.pop("values")` (func.py line 153): the
`"values"` key is gone, `"units"` and `"cutoff"` remain. -/
def ConfoundRecord.popValues (r : ConfoundRecord) : ConfoundRecord :=
  { r with values := none }

/-- A physio / physio-confound record after `kwargs.pop("values")`
(func.py lines 159, 166). -/
def PhysioRecord.popValues (r : PhysioRecord) : PhysioRecord :=
  { r with values := none }

/-- Observable outcome of a successful `fMRIPlot.plot` call: the grid shape
(`nrows` and `height_ratios`, line 140), the `palette` local (`none` when
the guard on line 147 was false and the name was never assigned), the
renderer invocations in call order, and the state of the object after the
call (the `pop` on lines 153, 159 and 166 mutates the stored records). -/
structure PlotOutcome where
  nrows : Nat
  height_ratios : List Nat
  palette : Option (List Color)
  calls : List RenderCall
  state : FMRIPlot
deriving DecidableEq

/-- `nrows` (func.py line 137). -/
def FMRIPlot.nrows (p : FMRIPlot) : Nat :=
  1 + p.confounds.length + p.spikes.length + p.physio.length + p.physio_confounds.length

/-- The `palette` local of `plot` (func.py lines 147-150): assigned only
when some trace category is non-empty (the truthiness guard on line 147);
`none` models the name never having been assigned, so that reading it
raises `NameError`. -/
def FMRIPlot.paletteOf (pal : Nat → List Color) (p : FMRIPlot) : Option (List Color) :=
  if p.confounds.isEmpty && p.physio.isEmpty && p.physio_confounds.isEmpty then none
  else some (pal (p.confounds.length + p.physio.length + p.physio_confounds.length))

/-- The spike loop (func.py lines 143-145): one `spikesplot` call per
stored spike tuple, on grid rows 0, 1, ..., with the tuple's label as
title, the global TR and the tuple's z-scored flag. -/
def FMRIPlot.spikeCalls (p : FMRIPlot) : List RenderCall :=
  mapWithIndex (fun j s => RenderCall.spike j s.values s.label p.tr s.zscored) 0 p.spikes

/-- The confound loop (func.py lines 152-155): `confoundplot` with the
global TR, `palette[i]` and the record's remaining kwargs (units, cutoff);
grid rows continue after the spikes. -/
def FMRIPlot.confLoop (pal : Nat → List Color) (p : FMRIPlot) : Option (List RenderCall) :=
  seqOpt (mapWithIndex
    (fun i nr => traceCallOpt p.tr (p.paletteOf pal) (p.spikes.length + i) i nr.1
      nr.2.values nr.2.units nr.2.cutoff)
    0 p.confounds)

/-- The physio loop (func.py lines 158-162): `confoundplot` with `tr=None`,
`palette[nconfounds + i]` and kwargs = units only (no cutoff keyword, so
the renderer's default `none` applies). -/
def FMRIPlot.physioLoop (pal : Nat → List Color) (p : FMRIPlot) : Option (List RenderCall) :=
  seqOpt (mapWithIndex
    (fun i nr => traceCallOpt none (p.paletteOf pal)
      (p.spikes.length + p.confounds.length + i) (p.confounds.length + i) nr.1
      nr.2.values nr.2.units none)
    0 p.physio)

/-- The physio-confound loop (func.py lines 165-168): `confoundplot` with
the global TR, `palette[nconfounds + nphysio + i]` and kwargs = units only
(these records have no cutoff entry). -/
def FMRIPlot.pconfLoop (pal : Nat → List Color) (p : FMRIPlot) : Option (List RenderCall) :=
  seqOpt (mapWithIndex
    (fun i nr => traceCallOpt p.tr (p.paletteOf pal)
      (p.spikes.length + p.confounds.length + p.physio.length + i)
      (p.confounds.length + p.physio.length + i) nr.1 nr.2.values nr.2.units none)
    0 p.physio_confounds)

/-- The final `plot_carpet` call (func.py lines 170-178): the imaging
matrix, the segments, the last grid region `grid[-1]`, TR, the sort flag,
the skip count and the paired-colormap selector. -/
def FMRIPlot.carpetCall (p : FMRIPlot) : RenderCall :=
  RenderCall.carpet (p.nrows - 1) p.timeseries p.segments p.tr p.sort_carpet p.nskip
    (if p.paired_carpet then some "paired" else none)

/-- The object state after the three trace loops popped every `"values"`
entry from the stored dicts (func.py lines 153, 159, 166); the spike
tuples and the remaining slots are untouched. -/
def FMRIPlot.popped (p : FMRIPlot) : FMRIPlot :=
  { p with
    confounds := p.confounds.map (fun nr => (nr.1, nr.2.popValues))
    physio := p.physio.map (fun nr => (nr.1, nr.2.popValues))
    physio_confounds := p.physio_confounds.map (fun nr => (nr.1, nr.2.popValues)) }

/-- `fMRIPlot.plot` (func.py lines 123-179), assembled from the loop
components above in the source's order: spikes, confounds, physio,
physio-confounds, carpet.  `pal` models `seaborn.color_palette("husl", n)`,
an external collaborator mapping a requested size to a color list.  The
figure argument and the seaborn style calls touch only drawing state and
are not modelled; `none` models a raised exception (see `traceCallOpt`). -/
def FMRIPlot.plot (pal : Nat → List Color) (p : FMRIPlot) : Option PlotOutcome := do
  let conf_calls ← p.confLoop pal
  let physio_calls ← p.physioLoop pal
  let pconf_calls ← p.pconfLoop pal
  pure
    { nrows := p.nrows
      height_ratios := List.replicate (p.nrows - 1) 1 ++ [5]
      palette := p.paletteOf pal
      calls := p.spikeCalls ++ conf_calls ++ physio_calls ++ pconf_calls ++ [p.carpetCall]
      state := p.popped }

/-- Every record stored on the object still carries its `"values"` entry.
True of every object `__init__` produces; `plot` destroys it. -/
def FMRIPlot.valuesPresent (p : FMRIPlot) : Prop :=
  (∀ nr ∈ p.confounds, nr.2.values.isSome) ∧
  (∀ nr ∈ p.physio, nr.2.values.isSome) ∧
  (∀ nr ∈ p.physio_confounds, nr.2.values.isSome)

instance (p : FMRIPlot) : Decidable p.valuesPresent := by
  unfold FMRIPlot.valuesPresent
  infer_instance

/-! Concrete instances used to exercise the theorems below on closed
inputs. -/

/-- A concrete palette generator: `n` distinct abstract colors, so
`(pal0 n).length = n` as the seaborn contract promises. -/
def pal0 : Nat → List Color := fun n => List.range n

/-- A concrete table loader (never consulted by the compositions below,
which pass their tables directly). -/
def read_csv0 : String → Option (List String) → DataFrame := fun _ _ => { columns := [] }

/-- A concrete spike-file loader. -/
def loadtxt0 : String → List (List Val) := fun _ => [[11], [12]]

/-- A concrete imaging matrix. -/
def ts0 : List (List Val) := [[1, 2], [3, 4]]

/-- A concrete segment labelling. -/
def seg0 : Segments := [("cortex", [0, 1])]

/-- A confound table with two columns. -/
def df0 : DataFrame := { columns := [("FD", [1, 2, 3]), ("DVARS", [4, 5, 6])] }

/-- A physio table with one column. -/
def dfP : DataFrame := { columns := [("HR", [7, 8])] }

/-- A physio-confound table with one column. -/
def dfQ : DataFrame := { columns := [("HR_reg", [9, 10])] }

/-- A units mapping naming only FD. -/
def units0 : List (String × String) := [("FD", "mm")]

/-- A cutoff mapping naming FD and - deliberately - the physio-confound
column HR_reg. -/
def vlines0 : List (String × Val) := [("FD", 1), ("HR_reg", 1)]

/-- A concrete composition: two confounds, one physio signal, one
physio-confound, one spike file, TR = 2, four skipped timepoints. -/
def p0 : FMRIPlot :=
  FMRIPlot.init read_csv0 loadtxt0 ts0 seg0 (some df0) none (some dfP) none (some dfQ)
    none (some 2) none (some units0) (some vlines0) (some ["sp1"]) 4 true false

/-- The outcome of plotting `p0` (total: `plot` succeeds on it, as proved
below). -/
def out0 : PlotOutcome :=
  (FMRIPlot.plot pal0 p0).getD
    { nrows := 0, height_ratios := [], palette := none, calls := [], state := p0 }

/-- A confound table whose one column has a single timepoint. -/
def df1 : DataFrame := { columns := [("FD", [5])] }

/-- A composition built from the single-timepoint table `df1`. -/
def p1 : FMRIPlot :=
  FMRIPlot.init read_csv0 loadtxt0 [[1]] [] (some df1) none none none none none
    none none none none none 0 true false

/-! Generic lemmas about the loop combinators. -/

theorem mapWithIndex_length {α β : Type} (f : Nat → α → β) (n : Nat) (l : List α) :
    (mapWithIndex f n l).length = l.length := by
  induction l generalizing n with
  | nil => rfl
  | cons a rest ih => simp [mapWithIndex, ih]

theorem mapWithIndex_getElem? {α β : Type} (f : Nat → α → β) (n : Nat) (l : List α)
    (k : Nat) : (mapWithIndex f n l)[k]? = (l[k]?).map (f (n + k)) := by
  induction l generalizing n k with
  | nil => simp [mapWithIndex]
  | cons a rest ih =>
    cases k with
    | zero => simp [mapWithIndex]
    | succ k =>
      have h : n + 1 + k = n + (k + 1) := by omega
      simp only [mapWithIndex, List.getElem?_cons_succ]
      rw [ih (n + 1) k, h]

theorem mem_mapWithIndex {α β : Type} {f : Nat → α → β} {n : Nat} {l : List α} {b : β}
    (hb : b ∈ mapWithIndex f n l) : ∃ k a, l[k]? = some a ∧ b = f (n + k) a := by
  induction l generalizing n with
  | nil => simp [mapWithIndex] at hb
  | cons a rest ih =>
    simp only [mapWithIndex, List.mem_cons] at hb
    rcases hb with hb | hb
    · exact ⟨0, a, by simp, by simpa using hb⟩
    · rcases ih hb with ⟨k, a2, hk, hbv⟩
      have h : n + 1 + k = n + (k + 1) := by omega
      rw [h] at hbv
      exact ⟨k + 1, a2, by simpa using hk, hbv⟩

theorem seqOpt_length {α : Type} {l : List (Option α)} {l2 : List α}
    (h : seqOpt l = some l2) : l2.length = l.length := by
  induction l generalizing l2 with
  | nil =>
    simp only [seqOpt, Option.some.injEq] at h
    subst h
    rfl
  | cons o rest ih =>
    cases o with
    | none => simp [seqOpt] at h
    | some a =>
      simp only [seqOpt] at h
      rcases Option.map_eq_some'.mp h with ⟨l3, h1, h2⟩
      subst h2
      simp [ih h1]

theorem seqOpt_getElem? {α : Type} {l : List (Option α)} {l2 : List α}
    (h : seqOpt l = some l2) (k : Nat) : l[k]? = (l2[k]?).map some := by
  induction l generalizing l2 k with
  | nil =>
    simp only [seqOpt, Option.some.injEq] at h
    subst h
    simp
  | cons o rest ih =>
    cases o with
    | none => simp [seqOpt] at h
    | some a =>
      simp only [seqOpt] at h
      rcases Option.map_eq_some'.mp h with ⟨l3, h1, h2⟩
      subst h2
      cases k with
      | zero => simp
      | succ k => simpa using ih h1 k

theorem seqOpt_isSome {α : Type} {l : List (Option α)}
    (h : ∀ o ∈ l, o.isSome) : (seqOpt l).isSome := by
  induction l with
  | nil => rfl
  | cons o rest ih =>
    rcases Option.isSome_iff_exists.mp (h o (List.mem_cons_self o rest)) with ⟨a, ha⟩
    subst ha
    have h2 := ih (fun q hq => h q (List.mem_cons_of_mem _ hq))
    rcases Option.isSome_iff_exists.mp h2 with ⟨l2, hl2⟩
    simp [seqOpt, hl2]

theorem seqOpt_mapWithIndex_length {α β : Type} {f : Nat → α → Option β} {n : Nat}
    {l : List α} {out : List β} (h : seqOpt (mapWithIndex f n l) = some out) :
    out.length = l.length := by
  rw [seqOpt_length h, mapWithIndex_length]

theorem seqOpt_mapWithIndex_get {α β : Type} {f : Nat → α → Option β} {n : Nat}
    {l : List α} {out : List β} (h : seqOpt (mapWithIndex f n l) = some out)
    {k : Nat} {a : α} (ha : l[k]? = some a) : out[k]? = f (n + k) a := by
  have h1 := seqOpt_getElem? h k
  rw [mapWithIndex_getElem?, ha, Option.map_some'] at h1
  cases h2 : out[k]? with
  | none => rw [h2] at h1; simp at h1
  | some b =>
    rw [h2, Option.map_some'] at h1
    injection h1 with h3
    exact h3.symm

theorem seqOpt_mapWithIndex_isSome {α β : Type} {f : Nat → α → Option β} {n : Nat}
    {l : List α} (h : ∀ k a, l[k]? = some a → (f (n + k) a).isSome) :
    (seqOpt (mapWithIndex f n l)).isSome := by
  apply seqOpt_isSome
  intro o ho
  rcases mem_mapWithIndex ho with ⟨k, a, hk, hv⟩
  rw [hv]
  exact h k a hk

/-! Lemmas about one trace-loop iteration and the palette. -/

theorem traceCallOpt_eq_some_iff {tr_arg : Option Val} {palette : Option (List Color)}
    {row idx : Nat} {name : String} {values : Option SqueezedValues}
    {units : Option String} {cutoff : Option Val} {c : RenderCall} :
    traceCallOpt tr_arg palette row idx name values units cutoff = some c ↔
    ∃ v pl col, values = some v ∧ palette = some pl ∧ pl[idx]? = some col ∧
      c = RenderCall.trace row v tr_arg col name units cutoff := by
  cases values with
  | none => simp [traceCallOpt]
  | some v =>
    cases palette with
    | none => simp [traceCallOpt]
    | some pl =>
      cases hcol : pl[idx]? with
      | none => simp [traceCallOpt, hcol]
      | some col =>
        simp only [traceCallOpt, hcol, Option.map_some', Option.some.injEq]
        constructor
        · intro h
          exact ⟨v, pl, col, rfl, rfl, hcol, h.symm⟩
        · rintro ⟨v2, pl2, col2, hv, hpl, hcol2, hc⟩
          cases hv
          cases hpl
          rw [hcol] at hcol2
          cases hcol2
          exact hc.symm

theorem paletteOf_eq_some {pal : Nat → List Color} {p : FMRIPlot}
    (h : p.confounds ≠ [] ∨ p.physio ≠ [] ∨ p.physio_confounds ≠ []) :
    p.paletteOf pal =
      some (pal (p.confounds.length + p.physio.length + p.physio_confounds.length)) := by
  unfold FMRIPlot.paletteOf
  rcases h with h | h | h <;> simp [List.isEmpty_iff, h]

theorem paletteOf_eq_none {pal : Nat → List Color} {p : FMRIPlot}
    (hc : p.confounds = []) (hp : p.physio = []) (hq : p.physio_confounds = []) :
    p.paletteOf pal = none := by
  simp [FMRIPlot.paletteOf, hc, hp, hq]

/-! Lemmas decomposing a successful `plot` call. -/

theorem plot_eq_some_iff {pal : Nat → List Color} {p : FMRIPlot} {out : PlotOutcome} :
    p.plot pal = some out ↔
    ∃ cc qc rc, p.confLoop pal = some cc ∧ p.physioLoop pal = some qc ∧
      p.pconfLoop pal = some rc ∧
      out = { nrows := p.nrows
              height_ratios := List.replicate (p.nrows - 1) 1 ++ [5]
              palette := p.paletteOf pal
              calls := p.spikeCalls ++ cc ++ qc ++ rc ++ [p.carpetCall]
              state := p.popped } := by
  simp only [FMRIPlot.plot, bind, Option.pure_def, Option.bind_eq_some,
    Option.some.injEq]
  constructor
  · rintro ⟨cc, hcc, qc, hqc, rc, hrc, hout⟩
    exact ⟨cc, qc, rc, hcc, hqc, hrc, hout.symm⟩
  · rintro ⟨cc, qc, rc, hcc, hqc, hrc, hout⟩
    exact ⟨cc, hcc, qc, hqc, rc, hrc, hout.symm⟩

theorem plot_out_fields {pal : Nat → List Color} {p : FMRIPlot} {out : PlotOutcome}
    (hplot : p.plot pal = some out) :
    out.nrows = p.nrows ∧
    out.height_ratios = List.replicate (p.nrows - 1) 1 ++ [5] ∧
    out.palette = p.paletteOf pal ∧
    out.state = p.popped ∧
    out.calls.length = p.nrows ∧
    out.calls[p.nrows - 1]? = some p.carpetCall := by
  rcases plot_eq_some_iff.mp hplot with ⟨cc, qc, rc, hcc, hqc, hrc, hout⟩
  subst hout
  have hccl : cc.length = p.confounds.length := seqOpt_mapWithIndex_length hcc
  have hqcl : qc.length = p.physio.length := seqOpt_mapWithIndex_length hqc
  have hrcl : rc.length = p.physio_confounds.length := seqOpt_mapWithIndex_length hrc
  have hsl : p.spikeCalls.length = p.spikes.length := mapWithIndex_length _ _ _
  have hlen : (p.spikeCalls ++ cc ++ qc ++ rc ++ [p.carpetCall]).length = p.nrows := by
    simp only [List.length_append, List.length_cons, List.length_nil, hccl, hqcl,
      hrcl, hsl, FMRIPlot.nrows]
    omega
  refine ⟨rfl, rfl, rfl, rfl, hlen, ?_⟩
  have hleft : (p.spikeCalls ++ cc ++ qc ++ rc).length = p.nrows - 1 := by
    simp only [List.length_append, hccl, hqcl, hrcl, hsl, FMRIPlot.nrows]
    omega
  rw [List.getElem?_append, if_neg (by omega)]
  rw [hleft]
  simp
theorem getElem?_append_lt {α : Type} {l1 l2 : List α} {k : Nat} (h : k < l1.length) :
    (l1 ++ l2)[k]? = l1[k]? := by
  rw [List.getElem?_append]
  exact if_pos h

theorem getElem?_append_ge {α : Type} {l1 l2 : List α} {k : Nat} (h : l1.length ≤ k) :
    (l1 ++ l2)[k]? = l2[k - l1.length]? := by
  rw [List.getElem?_append]
  exact if_neg (by omega)

theorem lt_length_of_getElem? {α : Type} {l : List α} {k : Nat} {a : α}
    (h : l[k]? = some a) : k < l.length := by
  by_contra hk
  rw [List.getElem?_eq_none (by omega)] at h
  cases h

theorem isSome_getElem?_of_lt {α : Type} {l : List α} {k : Nat} (h : k < l.length) :
    ∃ a, l[k]? = some a := by
  cases h2 : l[k]? with
  | none =>
    have := List.getElem?_eq_none_iff.mp h2
    omega
  | some a => exact ⟨a, rfl⟩

/-- The spike renderer invocation on row `j` reproduces the `j`-th stored
spike tuple (func.py lines 143-145). -/
theorem plot_spike_call {pal : Nat → List Color} {p : FMRIPlot} {out : PlotOutcome}
    (hplot : p.plot pal = some out) {j : Nat} {s : SpikeRecord}
    (hj : p.spikes[j]? = some s) :
    out.calls[j]? = some (RenderCall.spike j s.values s.label p.tr s.zscored) := by
  rcases plot_eq_some_iff.mp hplot with ⟨cc, qc, rc, hcc, hqc, hrc, hout⟩
  subst hout
  have hjlt : j < p.spikes.length := lt_length_of_getElem? hj
  have hsl : p.spikeCalls.length = p.spikes.length := mapWithIndex_length _ _ _
  dsimp only
  rw [getElem?_append_lt (by simp only [List.length_append]; omega),
      getElem?_append_lt (by simp only [List.length_append]; omega),
      getElem?_append_lt (by simp only [List.length_append]; omega),
      getElem?_append_lt (by omega)]
  unfold FMRIPlot.spikeCalls
  rw [mapWithIndex_getElem?, hj]
  simp

/-- The trace invocation on row `nspikes + i` reproduces the `i`-th stored
confound record, with the global TR, `palette[i]`, the record's units and
its cutoff (func.py lines 152-155). -/
theorem plot_confound_call {pal : Nat → List Color} {p : FMRIPlot} {out : PlotOutcome}
    (hplot : p.plot pal = some out) {i : Nat} {nr : String × ConfoundRecord}
    (hi : p.confounds[i]? = some nr) :
    ∃ v c,
      nr.2.values = some v ∧
      (pal (p.confounds.length + p.physio.length + p.physio_confounds.length))[i]? =
        some c ∧
      out.calls[p.spikes.length + i]? =
        some (RenderCall.trace (p.spikes.length + i) v p.tr c nr.1 nr.2.units
          nr.2.cutoff) := by
  rcases plot_eq_some_iff.mp hplot with ⟨cc, qc, rc, hcc, hqc, hrc, hout⟩
  subst hout
  have hilt : i < p.confounds.length := lt_length_of_getElem? hi
  have hsl : p.spikeCalls.length = p.spikes.length := mapWithIndex_length _ _ _
  have hccl : cc.length = p.confounds.length := seqOpt_mapWithIndex_length hcc
  have hcall := seqOpt_mapWithIndex_get hcc hi
  simp only [Nat.zero_add] at hcall
  rcases isSome_getElem?_of_lt (k := i) (l := cc) (by omega) with ⟨c0, hc0⟩
  rw [hc0] at hcall
  rcases traceCallOpt_eq_some_iff.mp hcall.symm with ⟨v, pl, col, hv, hpl, hcol, hceq⟩
  rw [paletteOf_eq_some (Or.inl (by intro he; rw [he] at hilt; simp at hilt))] at hpl
  injection hpl with hpl
  subst hpl
  refine ⟨v, col, hv, hcol, ?_⟩
  dsimp only
  rw [getElem?_append_lt (by simp only [List.length_append]; omega),
      getElem?_append_lt (by simp only [List.length_append]; omega),
      getElem?_append_lt (by simp only [List.length_append]; omega),
      getElem?_append_ge (by omega)]
  have hidx : p.spikes.length + i - p.spikeCalls.length = i := by omega
  rw [hidx, hc0, hceq]

/-- The trace invocation on row `nspikes + nconfounds + i` reproduces the
`i`-th stored physio record, with `tr=None`, `palette[nconfounds + i]`, the
record's units and no cutoff (func.py lines 158-162). -/
theorem plot_physio_call {pal : Nat → List Color} {p : FMRIPlot} {out : PlotOutcome}
    (hplot : p.plot pal = some out) {i : Nat} {nr : String × PhysioRecord}
    (hi : p.physio[i]? = some nr) :
    ∃ v c,
      nr.2.values = some v ∧
      (pal (p.confounds.length + p.physio.length + p.physio_confounds.length))[
        p.confounds.length + i]? = some c ∧
      out.calls[p.spikes.length + p.confounds.length + i]? =
        some (RenderCall.trace (p.spikes.length + p.confounds.length + i) v none c
          nr.1 nr.2.units none) := by
  rcases plot_eq_some_iff.mp hplot with ⟨cc, qc, rc, hcc, hqc, hrc, hout⟩
  subst hout
  have hilt : i < p.physio.length := lt_length_of_getElem? hi
  have hsl : p.spikeCalls.length = p.spikes.length := mapWithIndex_length _ _ _
  have hccl : cc.length = p.confounds.length := seqOpt_mapWithIndex_length hcc
  have hqcl : qc.length = p.physio.length := seqOpt_mapWithIndex_length hqc
  have hcall := seqOpt_mapWithIndex_get hqc hi
  simp only [Nat.zero_add] at hcall
  rcases isSome_getElem?_of_lt (k := i) (l := qc) (by omega) with ⟨c0, hc0⟩
  rw [hc0] at hcall
  rcases traceCallOpt_eq_some_iff.mp hcall.symm with ⟨v, pl, col, hv, hpl, hcol, hceq⟩
  rw [paletteOf_eq_some (Or.inr (Or.inl
    (by intro he; rw [he] at hilt; simp at hilt)))] at hpl
  injection hpl with hpl
  subst hpl
  refine ⟨v, col, hv, hcol, ?_⟩
  dsimp only
  rw [getElem?_append_lt (by simp only [List.length_append]; omega),
      getElem?_append_lt (by simp only [List.length_append]; omega),
      getElem?_append_ge (by simp only [List.length_append]; omega)]
  have hidx : p.spikes.length + p.confounds.length + i -
      (p.spikeCalls ++ cc).length = i := by
    simp only [List.length_append]
    omega
  rw [hidx, hc0, hceq]

/-- The trace invocation on row `nspikes + nconfounds + nphysio + i`
reproduces the `i`-th stored physio-confound record, with the global TR,
`palette[nconfounds + nphysio + i]`, the record's units and no cutoff
(func.py lines 165-168). -/
theorem plot_pconf_call {pal : Nat → List Color} {p : FMRIPlot} {out : PlotOutcome}
    (hplot : p.plot pal = some out) {i : Nat} {nr : String × PhysioRecord}
    (hi : p.physio_confounds[i]? = some nr) :
    ∃ v c,
      nr.2.values = some v ∧
      (pal (p.confounds.length + p.physio.length + p.physio_confounds.length))[
        p.confounds.length + p.physio.length + i]? = some c ∧
      out.calls[p.spikes.length + p.confounds.length + p.physio.length + i]? =
        some (RenderCall.trace
          (p.spikes.length + p.confounds.length + p.physio.length + i) v p.tr c
          nr.1 nr.2.units none) := by
  rcases plot_eq_some_iff.mp hplot with ⟨cc, qc, rc, hcc, hqc, hrc, hout⟩
  subst hout
  have hilt : i < p.physio_confounds.length := lt_length_of_getElem? hi
  have hsl : p.spikeCalls.length = p.spikes.length := mapWithIndex_length _ _ _
  have hccl : cc.length = p.confounds.length := seqOpt_mapWithIndex_length hcc
  have hqcl : qc.length = p.physio.length := seqOpt_mapWithIndex_length hqc
  have hrcl : rc.length = p.physio_confounds.length := seqOpt_mapWithIndex_length hrc
  have hcall := seqOpt_mapWithIndex_get hrc hi
  simp only [Nat.zero_add] at hcall
  rcases isSome_getElem?_of_lt (k := i) (l := rc) (by omega) with ⟨c0, hc0⟩
  rw [hc0] at hcall
  rcases traceCallOpt_eq_some_iff.mp hcall.symm with ⟨v, pl, col, hv, hpl, hcol, hceq⟩
  rw [paletteOf_eq_some (Or.inr (Or.inr
    (by intro he; rw [he] at hilt; simp at hilt)))] at hpl
  injection hpl with hpl
  subst hpl
  refine ⟨v, col, hv, hcol, ?_⟩
  dsimp only
  rw [getElem?_append_lt (by simp only [List.length_append]; omega),
      getElem?_append_ge (by simp only [List.length_append]; omega)]
  have hidx : p.spikes.length + p.confounds.length + p.physio.length + i -
      (p.spikeCalls ++ cc ++ qc).length = i := by
    simp only [List.length_append]
    omega
  rw [hidx, hc0, hceq]

theorem mem_of_getElem? {α : Type} {l : List α} {k : Nat} {a : α}
    (h : l[k]? = some a) : a ∈ l := by
  induction l generalizing k with
  | nil => simp at h
  | cons b rest ih =>
    cases k with
    | zero =>
      simp only [List.getElem?_cons_zero, Option.some.injEq] at h
      simp [h]
    | succ k => exact List.mem_cons_of_mem _ (ih (by simpa using h))

theorem traceCallOpt_isSome {tr_arg : Option Val} {row idx : Nat} {name : String}
    {values : Option SqueezedValues} {units : Option String} {cutoff : Option Val}
    {pl : List Color} (hv : values.isSome) (hidx : idx < pl.length) :
    (traceCallOpt tr_arg (some pl) row idx name values units cutoff).isSome := by
  rcases Option.isSome_iff_exists.mp hv with ⟨v, hv2⟩
  subst hv2
  rcases isSome_getElem?_of_lt hidx with ⟨col, hcol⟩
  simp [traceCallOpt, hcol]

theorem paletteOf_eq_if {pal : Nat → List Color} {p : FMRIPlot} :
    p.paletteOf pal =
      if p.confounds.length + p.physio.length + p.physio_confounds.length = 0 then none
      else some (pal (p.confounds.length + p.physio.length +
        p.physio_confounds.length)) := by
  by_cases h : p.confounds.length + p.physio.length + p.physio_confounds.length = 0
  · rw [if_pos h]
    exact paletteOf_eq_none (List.length_eq_zero.mp (by omega))
      (List.length_eq_zero.mp (by omega)) (List.length_eq_zero.mp (by omega))
  · rw [if_neg h]
    apply paletteOf_eq_some
    by_contra h2
    push_neg at h2
    rcases h2 with ⟨h2c, h2p, h2q⟩
    apply h
    simp [h2c, h2p, h2q]

/-- Claim C10: whenever `plot` reads a palette entry, the palette has been
constructed and the index is within its length.  On any composition whose
stored records still hold their `"values"` entries (as `__init__` builds
them) and any palette generator honoring the size contract, `plot` raises
no `NameError`, `IndexError` or `KeyError`: it returns an outcome. -/
theorem palette_access_safe (pal : Nat → List Color) (p : FMRIPlot)
    (hpal : ∀ n, (pal n).length = n) (hvals : p.valuesPresent) :
    (p.plot pal).isSome := by
  rcases hvals with ⟨hc, hp, hq⟩
  have h1 : (p.confLoop pal).isSome := by
    unfold FMRIPlot.confLoop
    apply seqOpt_mapWithIndex_isSome
    intro k a hk
    have hne : p.confounds ≠ [] := by
      intro he
      rw [he] at hk
      cases hk
    rw [paletteOf_eq_some (Or.inl hne)]
    apply traceCallOpt_isSome (hc a (mem_of_getElem? hk))
    rw [hpal]
    have := lt_length_of_getElem? hk
    omega
  have h2 : (p.physioLoop pal).isSome := by
    unfold FMRIPlot.physioLoop
    apply seqOpt_mapWithIndex_isSome
    intro k a hk
    have hne : p.physio ≠ [] := by
      intro he
      rw [he] at hk
      cases hk
    rw [paletteOf_eq_some (Or.inr (Or.inl hne))]
    apply traceCallOpt_isSome (hp a (mem_of_getElem? hk))
    rw [hpal]
    have := lt_length_of_getElem? hk
    omega
  have h3 : (p.pconfLoop pal).isSome := by
    unfold FMRIPlot.pconfLoop
    apply seqOpt_mapWithIndex_isSome
    intro k a hk
    have hne : p.physio_confounds ≠ [] := by
      intro he
      rw [he] at hk
      cases hk
    rw [paletteOf_eq_some (Or.inr (Or.inr hne))]
    apply traceCallOpt_isSome (hq a (mem_of_getElem? hk))
    rw [hpal]
    have := lt_length_of_getElem? hk
    omega
  rcases Option.isSome_iff_exists.mp h1 with ⟨cc, hcc⟩
  rcases Option.isSome_iff_exists.mp h2 with ⟨qc, hqc⟩
  rcases Option.isSome_iff_exists.mp h3 with ⟨rc, hrc⟩
  exact Option.isSome_iff_exists.mpr
    ⟨_, plot_eq_some_iff.mpr ⟨cc, qc, rc, hcc, hqc, hrc, rfl⟩⟩

/-- Claim C10 witness: the composition `p0` (2 confounds, 1 physio, 1
physio-confound, 1 spike) satisfies the hypotheses and its plot call
returns an outcome. -/
theorem palette_access_safe_witness : (FMRIPlot.plot pal0 p0).isSome :=
  palette_access_safe pal0 p0 (fun n => List.length_range n) (by decide)
/-- Claim C1: a composition with C confounds, S spikes, P physio and Q
physio-confound signals plots exactly C+S+P+Q+1 grid rows, in the fixed
order: the spike calls on rows 0..S-1 in spike-list order, the confound
trace calls on rows S..S+C-1 in column order, the physio trace calls next,
the physio-confound trace calls next, and the carpet call on the final
row. -/
theorem plot_row_count_and_order (pal : Nat → List Color) (p : FMRIPlot)
    (out : PlotOutcome) (hplot : p.plot pal = some out) :
    out.nrows = p.confounds.length + p.spikes.length + p.physio.length +
      p.physio_confounds.length + 1 ∧
    out.calls.length = out.nrows ∧
    (∀ j s, p.spikes[j]? = some s →
      out.calls[j]? = some (RenderCall.spike j s.values s.label p.tr s.zscored)) ∧
    (∀ i nr, p.confounds[i]? = some nr →
      ∃ c, out.calls[p.spikes.length + i]? = some c ∧ c.kind = CallKind.trace ∧
        c.row = p.spikes.length + i ∧ c.signalName = some nr.1) ∧
    (∀ i nr, p.physio[i]? = some nr →
      ∃ c, out.calls[p.spikes.length + p.confounds.length + i]? = some c ∧
        c.kind = CallKind.trace ∧ c.row = p.spikes.length + p.confounds.length + i ∧
        c.signalName = some nr.1) ∧
    (∀ i nr, p.physio_confounds[i]? = some nr →
      ∃ c, out.calls[p.spikes.length + p.confounds.length + p.physio.length + i]? =
        some c ∧ c.kind = CallKind.trace ∧
        c.row = p.spikes.length + p.confounds.length + p.physio.length + i ∧
        c.signalName = some nr.1) ∧
    out.calls[out.nrows - 1]? = some p.carpetCall ∧
    (p.carpetCall).kind = CallKind.carpet ∧ (p.carpetCall).row = out.nrows - 1 := by
  obtain ⟨hnr, hhr, hpalo, hst, hlen, hcarp⟩ := plot_out_fields hplot
  refine ⟨?_, ?_, ?_, ?_, ?_, ?_, ?_, ?_, ?_⟩
  · rw [hnr]
    unfold FMRIPlot.nrows
    omega
  · rw [hlen, hnr]
  · intro j s hj
    exact plot_spike_call hplot hj
  · intro i nr hi
    rcases plot_confound_call hplot hi with ⟨v, c, hv, hcol, hcall⟩
    exact ⟨_, hcall, rfl, rfl, rfl⟩
  · intro i nr hi
    rcases plot_physio_call hplot hi with ⟨v, c, hv, hcol, hcall⟩
    exact ⟨_, hcall, rfl, rfl, rfl⟩
  · intro i nr hi
    rcases plot_pconf_call hplot hi with ⟨v, c, hv, hcol, hcall⟩
    exact ⟨_, hcall, rfl, rfl, rfl⟩
  · rw [hnr]
    exact hcarp
  · rfl
  · rw [hnr]
    rfl

/-- Claim C1 witness: on the concrete composition `p0` (2 confounds, 1
spike, 1 physio, 1 physio-confound) the plot outcome has 2+1+1+1+1 = 6
rows. -/
theorem plot_row_count_and_order_witness :
    out0.nrows = p0.confounds.length + p0.spikes.length + p0.physio.length +
      p0.physio_confounds.length + 1 ∧ out0.nrows = 6 :=
  ⟨(plot_row_count_and_order pal0 p0 out0 (by decide)).1,
   ((plot_row_count_and_order pal0 p0 out0 (by decide)).1).trans (by decide)⟩

/-- Claim C2: the palette is built exactly when C+P+Q > 0, with exactly
C+P+Q entries (given the generator's size contract), and the trace call for
the i-th confound uses `palette[i]`, for the i-th physio signal
`palette[C + i]`, and for the i-th physio-confound `palette[C + P + i]`. -/
theorem plot_palette_assignment (pal : Nat → List Color) (p : FMRIPlot)
    (out : PlotOutcome) (hpal : ∀ n, (pal n).length = n)
    (hplot : p.plot pal = some out) :
    (out.palette =
      if p.confounds.length + p.physio.length + p.physio_confounds.length = 0 then none
      else some (pal (p.confounds.length + p.physio.length +
        p.physio_confounds.length))) ∧
    (∀ pl, out.palette = some pl →
      pl.length = p.confounds.length + p.physio.length + p.physio_confounds.length) ∧
    (∀ i nr, p.confounds[i]? = some nr → ∃ v c,
      nr.2.values = some v ∧
      (pal (p.confounds.length + p.physio.length + p.physio_confounds.length))[i]? =
        some c ∧
      out.calls[p.spikes.length + i]? =
        some (RenderCall.trace (p.spikes.length + i) v p.tr c nr.1 nr.2.units
          nr.2.cutoff)) ∧
    (∀ i nr, p.physio[i]? = some nr → ∃ v c,
      nr.2.values = some v ∧
      (pal (p.confounds.length + p.physio.length + p.physio_confounds.length))[
        p.confounds.length + i]? = some c ∧
      out.calls[p.spikes.length + p.confounds.length + i]? =
        some (RenderCall.trace (p.spikes.length + p.confounds.length + i) v none c
          nr.1 nr.2.units none)) ∧
    (∀ i nr, p.physio_confounds[i]? = some nr → ∃ v c,
      nr.2.values = some v ∧
      (pal (p.confounds.length + p.physio.length + p.physio_confounds.length))[
        p.confounds.length + p.physio.length + i]? = some c ∧
      out.calls[p.spikes.length + p.confounds.length + p.physio.length + i]? =
        some (RenderCall.trace
          (p.spikes.length + p.confounds.length + p.physio.length + i) v p.tr c
          nr.1 nr.2.units none)) := by
  obtain ⟨hnr, hhr, hpalo, hst, hlen, hcarp⟩ := plot_out_fields hplot
  refine ⟨?_, ?_, ?_, ?_, ?_⟩
  · rw [hpalo, paletteOf_eq_if]
  · intro pl hpl
    rw [hpalo, paletteOf_eq_if] at hpl
    by_cases h : p.confounds.length + p.physio.length + p.physio_confounds.length = 0
    · rw [if_pos h] at hpl
      cases hpl
    · rw [if_neg h] at hpl
      injection hpl with hpl
      rw [← hpl, hpal]
  · intro i nr hi
    exact plot_confound_call hplot hi
  · intro i nr hi
    exact plot_physio_call hplot hi
  · intro i nr hi
    exact plot_pconf_call hplot hi

/-- Claim C2 witness: on `p0`, C+P+Q = 4, the palette is `pal0 4` of length
4, and the first confound trace call (row 1, after the single spike row)
carries `palette[0]`. -/
theorem plot_palette_assignment_witness :
    out0.palette = some (pal0 4) ∧ (pal0 4).length = 4 :=
  ⟨((plot_palette_assignment pal0 p0 out0 (fun n => List.length_range n)
      (by decide)).1).trans (by decide),
   by decide⟩
/-- Claim C3 counterexample: the claim "record contents stored on the
composition object are unchanged by running the plot operation" is false.
On the concrete composition `p0`, `plot` pops the `"values"` entry out of
the stored FD confound record (func.py line 153 mutates the dict held in
`self.confounds`), so the state after plotting differs from `p0`. -/
theorem plot_mutates_stored_records :
    (FMRIPlot.plot pal0 p0).map (fun o => o.state) ≠ some p0 ∧
    dict_get p0.confounds "FD" =
      some { values := some (SqueezedValues.seq [1, 2, 3]), units := some "mm",
             cutoff := some 1 } ∧
    (FMRIPlot.plot pal0 p0).map (fun o => dict_get o.state.confounds "FD") =
      some (some { values := none, units := some "mm", cutoff := some 1 }) := by
  refine ⟨by decide, by decide, by decide⟩

/-- Claim C3 amended: all records are constructed once during
normalization, but running the plot operation mutates the stored confound,
physio and physio-confound records: it removes the `"values"` entry from
each of them (`kwargs.pop("values")`), leaving the other entries; the
spike records and every other slot of the object are unchanged. -/
theorem plot_pops_values_from_records (pal : Nat → List Color) (p : FMRIPlot)
    (out : PlotOutcome) (hplot : p.plot pal = some out) :
    out.state.confounds = p.confounds.map (fun nr => (nr.1, nr.2.popValues)) ∧
    out.state.physio = p.physio.map (fun nr => (nr.1, nr.2.popValues)) ∧
    out.state.physio_confounds =
      p.physio_confounds.map (fun nr => (nr.1, nr.2.popValues)) ∧
    out.state.spikes = p.spikes ∧
    out.state.timeseries = p.timeseries ∧
    out.state.segments = p.segments ∧
    out.state.tr = p.tr ∧
    out.state.nskip = p.nskip ∧
    out.state.sort_carpet = p.sort_carpet ∧
    out.state.paired_carpet = p.paired_carpet := by
  obtain ⟨hnr, hhr, hpalo, hst, hlen, hcarp⟩ := plot_out_fields hplot
  rw [hst]
  exact ⟨rfl, rfl, rfl, rfl, rfl, rfl, rfl, rfl, rfl, rfl⟩

/-- Claim C3 amended witness: on `p0` the post-plot state holds the FD and
DVARS records without their values, spikes unchanged. -/
theorem plot_pops_values_from_records_witness :
    out0.state.confounds =
      p0.confounds.map (fun nr => (nr.1, nr.2.popValues)) ∧
    out0.state.spikes = p0.spikes :=
  ⟨(plot_pops_values_from_records pal0 p0 out0 (by decide)).1,
   (plot_pops_values_from_records pal0 p0 out0 (by decide)).2.2.2.1⟩

/-- Claim C4: every physio trace call passes `tr=None` to the renderer
(func.py line 161), whatever the composition's global TR is. -/
theorem physio_trace_tr_none (pal : Nat → List Color) (p : FMRIPlot)
    (out : PlotOutcome) (hplot : p.plot pal = some out) (i : Nat)
    (nr : String × PhysioRecord) (hi : p.physio[i]? = some nr) :
    ∃ c, out.calls[p.spikes.length + p.confounds.length + i]? = some c ∧
      c.kind = CallKind.trace ∧ c.signalName = some nr.1 ∧
      RenderCall.trArg c = none := by
  rcases plot_physio_call hplot hi with ⟨v, c, hv, hcol, hcall⟩
  exact ⟨_, hcall, rfl, rfl, rfl⟩

/-- Claim C4 witness: `p0` has global TR = 2 (non-none), and its physio
trace call on row 3 still hands the renderer `tr = none`. -/
theorem physio_trace_tr_none_witness :
    p0.tr = some 2 ∧
    ∃ c, out0.calls[p0.spikes.length + p0.confounds.length + 0]? = some c ∧
      c.kind = CallKind.trace ∧
      c.signalName = some "HR" ∧
      RenderCall.trArg c = none :=
  ⟨by decide,
   physio_trace_tr_none pal0 p0 out0 (by decide) 0
     ("HR", { values := some (SqueezedValues.seq [7, 8]), units := none })
     (by decide)⟩

/-- Claim C8: the carpet panel occupies the last grid row, whose height
ratio is 5, while every other row's height ratio is 1 (func.py line 140:
`height_ratios=[1] * (nrows - 1) + [5]`; line 173: `subplot=grid[-1]`). -/
theorem carpet_last_row_height (pal : Nat → List Color) (p : FMRIPlot)
    (out : PlotOutcome) (hplot : p.plot pal = some out) :
    out.height_ratios.length = out.nrows ∧
    out.height_ratios[out.nrows - 1]? = some 5 ∧
    (∀ k, k < out.nrows - 1 → out.height_ratios[k]? = some 1) ∧
    out.calls.length = out.nrows ∧
    out.calls[out.nrows - 1]? =
      some (RenderCall.carpet (out.nrows - 1) p.timeseries p.segments p.tr
        p.sort_carpet p.nskip (if p.paired_carpet then some "paired" else none)) := by
  obtain ⟨hnr, hhr, hpalo, hst, hlen, hcarp⟩ := plot_out_fields hplot
  have hge1 : 1 ≤ p.nrows := by
    unfold FMRIPlot.nrows
    omega
  refine ⟨?_, ?_, ?_, ?_, ?_⟩
  · rw [hhr, hnr]
    simp only [List.length_append, List.length_replicate, List.length_cons,
      List.length_nil]
    omega
  · rw [hhr, hnr, getElem?_append_ge (by simp only [List.length_replicate]; omega)]
    simp only [List.length_replicate]
    have h0 : p.nrows - 1 - (p.nrows - 1) = 0 := by omega
    rw [h0]
    rfl
  · intro k hk
    rw [hnr] at hk
    rw [hhr, getElem?_append_lt (by simp only [List.length_replicate]; omega)]
    simp [List.getElem?_replicate, hk]
  · rw [hlen, hnr]
  · rw [hnr]
    exact hcarp

/-- Claim C8 witness: on `p0` (6 rows) the height ratios are five 1s then
a 5, and the final row's call is the carpet call with `p0`'s matrix,
segments, TR = 2, sorting on and 4 skipped timepoints. -/
theorem carpet_last_row_height_witness :
    out0.height_ratios[out0.nrows - 1]? = some 5 ∧
    out0.calls[out0.nrows - 1]? =
      some (RenderCall.carpet (out0.nrows - 1) p0.timeseries p0.segments p0.tr
        p0.sort_carpet p0.nskip
        (if p0.paired_carpet then some "paired" else none)) :=
  ⟨(carpet_last_row_height pal0 p0 out0 (by decide)).2.1,
   (carpet_last_row_height pal0 p0 out0 (by decide)).2.2.2.2⟩
theorem squeeze_tolist_of_length_ne_one {col : List Val} (h : col.length ≠ 1) :
    squeeze_tolist col = SqueezedValues.seq col := by
  rcases col with _ | ⟨x, _ | ⟨y, rest⟩⟩
  · rfl
  · simp at h
  · rfl

theorem dict_get_eq_none {β : Type} {m : List (String × β)} {k : String}
    (h : ∀ q ∈ m, q.1 ≠ k) : dict_get m k = none := by
  have h2 : m.find? (fun q => q.1 == k) = none := by
    apply List.find?_eq_none.mpr
    intro q hq
    simpa using h q hq
  unfold dict_get
  rw [h2]
  rfl

theorem dict_get_eq_some {β : Type} {m : List (String × β)} {k : String} {v : β}
    (hnd : (m.map Prod.fst).Nodup) (h : (k, v) ∈ m) : dict_get m k = some v := by
  induction m with
  | nil => cases h
  | cons q rest ih =>
    rw [List.map_cons] at hnd
    rcases List.nodup_cons.mp hnd with ⟨hnotin, hnd2⟩
    rcases List.mem_cons.mp h with h1 | h1
    · subst h1
      unfold dict_get
      rw [List.find?_cons_of_pos _ (by simp)]
      rfl
    · have hq : q.1 ≠ k := by
        intro he
        apply hnotin
        rw [he]
        simpa using List.mem_map_of_mem Prod.fst h1
      unfold dict_get
      rw [List.find?_cons_of_neg _ (by simp [hq])]
      exact ih hnd2 h1

/-- Claim C5: a physio-confound record never carries a cutoff, even when
the caller-supplied cutoff mapping (`vlines`) names its column: `__init__`
builds it from values and units only (func.py lines 112-116, never reading
`vlines`), so the records are identical to those built with no cutoff
mapping at all, and the trace renderer for its row receives cutoff =
`none`. -/
theorem physio_confound_cutoff_none
    (read_csv : String → Option (List String) → DataFrame)
    (loadtxt : String → List (List Val))
    (ts : List (List Val)) (seg : Segments)
    (confounds : Option DataFrame) (conf_file : Option String)
    (physioDf : Option DataFrame) (physio_file : Option String)
    (pconfDf : DataFrame) (physio_conf_file : Option String)
    (tr : Option Val) (usecols : Option (List String))
    (units : Option (List (String × String))) (vlines : List (String × Val))
    (spikes_files : Option (List String)) (nskip : Nat) (sc pc : Bool)
    (p : FMRIPlot)
    (hp : p = FMRIPlot.init read_csv loadtxt ts seg confounds conf_file physioDf
      physio_file (some pconfDf) physio_conf_file tr usecols units (some vlines)
      spikes_files nskip sc pc)
    (j : Nat) (nc : String × List Val) (v : Val)
    (hv : dict_get vlines nc.1 = some v)
    (hj : pconfDf.columns[j]? = some nc) :
    p.physio_confounds[j]? = some (nc.1, mkPhysioRecord (units.getD []) nc.1 nc.2) ∧
    p.physio_confounds =
      (FMRIPlot.init read_csv loadtxt ts seg confounds conf_file physioDf
        physio_file (some pconfDf) physio_conf_file tr usecols units none
        spikes_files nskip sc pc).physio_confounds ∧
    (∀ pal out, p.plot pal = some out →
      ∃ c, out.calls[p.spikes.length + p.confounds.length + p.physio.length + j]? =
        some c ∧ c.kind = CallKind.trace ∧ c.signalName = some nc.1 ∧
        RenderCall.cutoffArg c = none) := by
  have hrec : p.physio_confounds =
      pconfDf.columns.map (fun nc => (nc.1, mkPhysioRecord (units.getD []) nc.1 nc.2)) := by
    rw [hp]
    simp [FMRIPlot.init]
  have hjrec : p.physio_confounds[j]? =
      some (nc.1, mkPhysioRecord (units.getD []) nc.1 nc.2) := by
    rw [hrec, List.getElem?_map, hj, Option.map_some']
  refine ⟨hjrec, ?_, ?_⟩
  · rw [hrec]
    simp [FMRIPlot.init]
  · intro pal out hplot
    rcases plot_pconf_call hplot hjrec with ⟨v2, c, hv2, hcol, hcall⟩
    exact ⟨_, hcall, rfl, rfl, rfl⟩

/-- Claim C5 witness: `p0`'s cutoff mapping contains ("HR_reg", 1) yet the
HR_reg physio-confound record has no cutoff and its trace call (row 4)
hands the renderer cutoff = none. -/
theorem physio_confound_cutoff_none_witness :
    dict_get vlines0 "HR_reg" = some 1 ∧
    p0.physio_confounds[0]? =
      some ("HR_reg", mkPhysioRecord (Option.getD (some units0) []) "HR_reg" [9, 10]) ∧
    (∃ c, out0.calls[p0.spikes.length + p0.confounds.length + p0.physio.length + 0]? =
      some c ∧ c.kind = CallKind.trace ∧ c.signalName = some "HR_reg" ∧
      RenderCall.cutoffArg c = none) := by
  have h := physio_confound_cutoff_none read_csv0 loadtxt0 ts0 seg0 (some df0) none
    (some dfP) none dfQ none (some 2) none (some units0) vlines0 (some ["sp1"]) 4
    true false p0 (by rfl) 0 ("HR_reg", [9, 10]) 1 (by decide) (by decide)
  exact ⟨by decide, h.1, h.2.2 pal0 out0 (by decide)⟩

/-- Claim C6 counterexample: the claim promises a one-dimensional ordered
sequence for any column length including a single timepoint, but a
single-row column collapses under `squeeze().tolist()` to a bare scalar:
the composition `p1`, built from the table with one column FD = [5],
stores values as the scalar 5 and not as a one-element sequence. -/
theorem confound_single_timepoint_collapses :
    p1.confounds = [("FD", { values := some (SqueezedValues.scalar 5),
                             units := none, cutoff := none })] ∧
    (SqueezedValues.scalar 5).isSeq = false ∧
    SqueezedValues.scalar 5 ≠ SqueezedValues.seq [5] := by
  refine ⟨by decide, rfl, by decide⟩

/-- Claim C6 amended: for every confound column whose length is not
exactly 1, in table order, normalization produces a record whose values
are the column's data as a one-dimensional ordered sequence, with units =
lookup(name) or none and cutoff = lookup(name) or none; a single-row
column instead collapses to a bare scalar (numpy `squeeze` removes the
length-1 time axis). -/
theorem confound_record_flatten
    (read_csv : String → Option (List String) → DataFrame)
    (loadtxt : String → List (List Val))
    (ts : List (List Val)) (seg : Segments)
    (confDf : DataFrame) (conf_file : Option String)
    (physioDf : Option DataFrame) (physio_file : Option String)
    (pconfDf : Option DataFrame) (physio_conf_file : Option String)
    (tr : Option Val) (usecols : Option (List String))
    (units : List (String × String)) (vlines : List (String × Val))
    (spikes_files : Option (List String)) (nskip : Nat) (sc pc : Bool)
    (p : FMRIPlot)
    (hp : p = FMRIPlot.init read_csv loadtxt ts seg (some confDf) conf_file physioDf
      physio_file pconfDf physio_conf_file tr usecols (some units) (some vlines)
      spikes_files nskip sc pc)
    (j : Nat) (nc : String × List Val)
    (hj : confDf.columns[j]? = some nc) (hlen : nc.2.length ≠ 1) :
    p.confounds[j]? =
      some (nc.1, { values := some (SqueezedValues.seq nc.2),
                    units := dict_get units nc.1,
                    cutoff := dict_get vlines nc.1 }) := by
  have hrec : p.confounds =
      confDf.columns.map (fun nc => (nc.1, mkConfoundRecord units vlines nc.1 nc.2)) := by
    rw [hp]
    simp [FMRIPlot.init]
  rw [hrec, List.getElem?_map, hj, Option.map_some']
  unfold mkConfoundRecord
  rw [squeeze_tolist_of_length_ne_one hlen]

/-- Claim C6 amended witness: the FD column of `df0` (three timepoints)
yields the record with values = the sequence [1, 2, 3], units looked up as
"mm" and cutoff looked up as 1. -/
theorem confound_record_flatten_witness :
    p0.confounds[0]? =
      some ("FD", { values := some (SqueezedValues.seq [1, 2, 3]),
                    units := dict_get units0 "FD",
                    cutoff := dict_get vlines0 "FD" }) :=
  confound_record_flatten read_csv0 loadtxt0 ts0 seg0 df0 none (some dfP) none
    (some dfQ) none (some 2) none units0 vlines0 (some ["sp1"]) 4 true false p0
    (by rfl) 0 ("FD", [1, 2, 3]) (by decide) (by decide)

/-- Claim C7: a column name absent from the units or cutoff mapping yields
`none` for that field (no error), and a name present in a mapping yields
exactly the mapped value (`units.get(name)` / `vlines.get(name)`, func.py
lines 89-90). -/
theorem units_cutoff_lookup_defaults
    (read_csv : String → Option (List String) → DataFrame)
    (loadtxt : String → List (List Val))
    (ts : List (List Val)) (seg : Segments)
    (confDf : DataFrame) (conf_file : Option String)
    (physioDf : Option DataFrame) (physio_file : Option String)
    (pconfDf : Option DataFrame) (physio_conf_file : Option String)
    (tr : Option Val) (usecols : Option (List String))
    (units : List (String × String)) (vlines : List (String × Val))
    (spikes_files : Option (List String)) (nskip : Nat) (sc pc : Bool)
    (p : FMRIPlot)
    (hp : p = FMRIPlot.init read_csv loadtxt ts seg (some confDf) conf_file physioDf
      physio_file pconfDf physio_conf_file tr usecols (some units) (some vlines)
      spikes_files nskip sc pc)
    (j : Nat) (nc : String × List Val)
    (hj : confDf.columns[j]? = some nc)
    (hu : (units.map Prod.fst).Nodup) (hvn : (vlines.map Prod.fst).Nodup) :
    ∃ rec : ConfoundRecord,
      p.confounds[j]? = some (nc.1, rec) ∧
      ((∀ q ∈ units, q.1 ≠ nc.1) → rec.units = none) ∧
      (∀ u, (nc.1, u) ∈ units → rec.units = some u) ∧
      ((∀ q ∈ vlines, q.1 ≠ nc.1) → rec.cutoff = none) ∧
      (∀ v, (nc.1, v) ∈ vlines → rec.cutoff = some v) := by
  have hrec : p.confounds =
      confDf.columns.map (fun nc => (nc.1, mkConfoundRecord units vlines nc.1 nc.2)) := by
    rw [hp]
    simp [FMRIPlot.init]
  refine ⟨mkConfoundRecord units vlines nc.1 nc.2, ?_, ?_, ?_, ?_, ?_⟩
  · rw [hrec, List.getElem?_map, hj, Option.map_some']
  · intro h
    show dict_get units nc.1 = none
    exact dict_get_eq_none h
  · intro u h
    show dict_get units nc.1 = some u
    exact dict_get_eq_some hu h
  · intro h
    show dict_get vlines nc.1 = none
    exact dict_get_eq_none h
  · intro v h
    show dict_get vlines nc.1 = some v
    exact dict_get_eq_some hvn h

/-- Claim C7 witness: with units = ("FD", "mm") and cutoff mapping naming
FD and HR_reg, the DVARS record gets units = none and cutoff = none while
the FD fields would return the mapped values exactly. -/
theorem units_cutoff_lookup_defaults_witness :
    ∃ rec : ConfoundRecord,
      p0.confounds[1]? = some ("DVARS", rec) ∧
      ((∀ q ∈ units0, q.1 ≠ "DVARS") → rec.units = none) ∧
      (∀ u, ("DVARS", u) ∈ units0 → rec.units = some u) ∧
      ((∀ q ∈ vlines0, q.1 ≠ "DVARS") → rec.cutoff = none) ∧
      (∀ v, ("DVARS", v) ∈ vlines0 → rec.cutoff = some v) :=
  units_cutoff_lookup_defaults read_csv0 loadtxt0 ts0 seg0 df0 none (some dfP) none
    (some dfQ) none (some 2) none units0 vlines0 (some ["sp1"]) 4 true false p0
    (by rfl) 1 ("DVARS", [4, 5, 6]) (by decide) (by decide) (by decide)

/-- Claim C9: each spike-file path yields, in list order, one stored spike
record (loaded array, label `None`, z-scored flag `False`), and the spike
renderer for its row is invoked with exactly that title (`none`) and that
z-scored flag (`false`), plus the global TR. -/
theorem spike_records_and_calls
    (read_csv : String → Option (List String) → DataFrame)
    (loadtxt : String → List (List Val))
    (ts : List (List Val)) (seg : Segments)
    (confounds : Option DataFrame) (conf_file : Option String)
    (physioDf : Option DataFrame) (physio_file : Option String)
    (pconfDf : Option DataFrame) (physio_conf_file : Option String)
    (tr : Option Val) (usecols : Option (List String))
    (units : Option (List (String × String))) (vlines : Option (List (String × Val)))
    (spikes_files : List String) (nskip : Nat) (sc pc : Bool)
    (p : FMRIPlot)
    (hp : p = FMRIPlot.init read_csv loadtxt ts seg confounds conf_file physioDf
      physio_file pconfDf physio_conf_file tr usecols units vlines
      (some spikes_files) nskip sc pc)
    (j : Nat) (f : String) (hj : spikes_files[j]? = some f) :
    p.spikes[j]? = some { values := loadtxt f, label := none, zscored := false } ∧
    (∀ pal out, p.plot pal = some out →
      out.calls[j]? = some (RenderCall.spike j (loadtxt f) none tr false)) := by
  have hsp : p.spikes = spikes_files.map
      (fun f2 => ({ values := loadtxt f2, label := none, zscored := false } : SpikeRecord)) := by
    rw [hp]
    simp [FMRIPlot.init]
  have htr : p.tr = tr := by
    rw [hp]
    simp [FMRIPlot.init]
  have hjs : p.spikes[j]? =
      some { values := loadtxt f, label := none, zscored := false } := by
    rw [hsp, List.getElem?_map, hj, Option.map_some']
  refine ⟨hjs, ?_⟩
  intro pal out hplot
  have := plot_spike_call hplot hjs
  rw [htr] at this
  exact this

/-- Claim C9 witness: `p0`'s one spike file "sp1" yields the record with
the loaded array, no label and z-scored false, and the spike call on row 0
passes title = none, TR = 2 and zscored = false. -/
theorem spike_records_and_calls_witness :
    p0.spikes[0]? =
      some { values := loadtxt0 "sp1", label := none, zscored := false } ∧
    out0.calls[0]? =
      some (RenderCall.spike 0 (loadtxt0 "sp1") none (some 2) false) := by
  have h := spike_records_and_calls read_csv0 loadtxt0 ts0 seg0 (some df0) none
    (some dfP) none (some dfQ) none (some 2) none (some units0) (some vlines0)
    ["sp1"] 4 true false p0 (by rfl) 0 "sp1" (by decide)
  exact ⟨h.1, h.2 pal0 out0 (by decide)⟩
end NireportsFunc







